import Mathlib

/-!
Shallow embedding of the eventbrite-scraper pipeline (`src/index.ts`):
the page-range parser, the scrape-job status handling, the result store
(archive + persist), and the per-event enrichment chain with its
truthiness-based field fusion.

String primitives (`split`, `trim`, `includes`, `parseInt`) are embedded as
structurally recursive functions on `List Char` so that every definition
evaluates inside the kernel on concrete inputs.
-/

namespace Scraper

/-- A JavaScript value as it appears in the untyped stage payloads:
`undefined`, `null`, a string, or an integer number. -/
inductive JSVal where
  | undef
  | null
  | str (s : String)
  | num (n : Int)
deriving DecidableEq

/-- JavaScript truthiness: `undefined`, `null`, `""` and `0` are falsy. -/
def JSVal.truthy : JSVal → Bool
  | .undef => false
  | .null => false
  | .str s => s ≠ ""
  | .num n => n ≠ 0

/-- JavaScript `x || y`: `x` when truthy, else `y`. -/
def jsOr (x y : JSVal) : JSVal := if x.truthy then x else y

/-- Access `x?.f` on an optional object: `undefined` when the object is
`null`/`undefined`, else the field. -/
def optField (o : Option α) (f : α → JSVal) : JSVal :=
  match o with
  | none => JSVal.undef
  | some x => f x

/-- Whether the char list `p` is a prefix of `l` (helper for substring search). -/
def charsStartWith : List Char → List Char → Bool
  | [], _ => true
  | _ :: _, [] => false
  | a :: ps, b :: ls => a = b && charsStartWith ps ls

/-- Whether the char list `p` occurs contiguously inside `l`. -/
def charsContain (p : List Char) : List Char → Bool
  | [] => p.isEmpty
  | b :: ls => charsStartWith p (b :: ls) || charsContain p ls

/-- JavaScript `s.includes(pat)`: substring containment. -/
def containsSub (s pat : String) : Bool := charsContain pat.toList s.toList

/-- JavaScript `s.trim()`: strip whitespace from both ends. -/
def jsTrim (s : String) : String :=
  ⟨((s.toList.dropWhile Char.isWhitespace).reverse.dropWhile Char.isWhitespace).reverse⟩

/-- Split a char list on a separator character (`String.prototype.split` with
a one-character separator: `"".split(c) = [""]`, empty fields kept). -/
def splitOnChar (sep : Char) : List Char → List (List Char)
  | [] => [[]]
  | c :: cs =>
    match splitOnChar sep cs with
    | [] => [[]]
    | t :: ts => if c = sep then [] :: t :: ts else (c :: t) :: ts

/-- JavaScript `s.split(sep)` for a one-character separator. -/
def jsSplit (sep : Char) (s : String) : List String :=
  (splitOnChar sep s.toList).map fun l => ⟨l⟩

/-- Value of a decimal digit character, `none` otherwise. -/
def decDigit? (c : Char) : Option Nat :=
  if c.isDigit then some (c.toNat - 48) else none

/-- Value of a hexadecimal digit character, `none` otherwise. -/
def hexDigit? (c : Char) : Option Nat :=
  if c.isDigit then some (c.toNat - 48)
  else if 'a' ≤ c ∧ c ≤ 'f' then some (c.toNat - 87)
  else if 'A' ≤ c ∧ c ≤ 'F' then some (c.toNat - 55)
  else none

/-- Longest prefix of digit values read by `f`. -/
def takeDigits (f : Char → Option Nat) : List Char → List Nat
  | [] => []
  | c :: cs =>
    match f c with
    | some d => d :: takeDigits f cs
    | none => []

/-- Digit list to number in the given base (most significant first). -/
def digitsToNat (base : Nat) (ds : List Nat) : Nat :=
  ds.foldl (fun a d => a * base + d) 0

/-- JavaScript `parseInt(s)` (radix auto-detected): skip leading whitespace,
optional sign, `0x`/`0X` prefix switches to base 16, read the longest digit
prefix; `none` models `NaN` (no digits read). -/
def parseIntJS (s : String) : Option Int :=
  let l := s.toList.dropWhile Char.isWhitespace
  let signAndRest : Int × List Char :=
    match l with
    | '-' :: rest => (-1, rest)
    | '+' :: rest => (1, rest)
    | _ => (1, l)
  let sign := signAndRest.1
  let body := signAndRest.2
  match body with
  | '0' :: c :: rest =>
    if c = 'x' ∨ c = 'X' then
      match takeDigits hexDigit? rest with
      | [] => none
      | ds => some (sign * (digitsToNat 16 ds : Int))
    else
      match takeDigits decDigit? body with
      | [] => none
      | ds => some (sign * (digitsToNat 10 ds : Int))
  | _ =>
    match takeDigits decDigit? body with
    | [] => none
    | ds => some (sign * (digitsToNat 10 ds : Int))

/-- The comma-separated tokens of a page spec: split on `","`, trim each,
drop empties (`split(",").map(p => p.trim()).filter(Boolean)`). -/
def pageTokens (input : String) : List String :=
  ((jsSplit ',' (jsTrim input)).map jsTrim).filter (· ≠ "")

/-- The two range endpoints a dash token yields:
`part.split("-").map(n => parseInt(n.trim()))` destructured to its first two
entries (a missing entry is `undefined`, hence `NaN`). -/
def rangeEndpoints (part : String) : Option Int × Option Int :=
  let nums := (jsSplit '-' part).map fun n => parseIntJS (jsTrim n)
  (nums.headD none, (nums.drop 1).headD none)

/-- The integers from `lo` to `hi` inclusive, ascending (the `for` loop
`for (let i = lo; i <= hi; i++)`). -/
def rangeList (lo hi : Int) : List Int :=
  (List.range (hi + 1 - lo).toNat).map fun i : Nat => lo + (i : Int)

/-- The pages one token contributes, in the order the loop body adds them:
a token containing a dash is a range (both endpoints must parse; every
strictly positive integer between min and max is added), otherwise a single
page (must parse and be positive). -/
def partContribution (part : String) : List Int :=
  if containsSub part "-" then
    match rangeEndpoints part with
    | (some s, some e) => (rangeList (min s e) (max s e)).filter fun i => 0 < i
    | _ => []
  else
    match parseIntJS part with
    | some n => if 0 < n then [n] else []
    | none => []

/-- JS `Set.prototype.add`: append if not already present (JS sets keep
insertion order); a `Set` is embedded as its insertion-ordered
duplicate-free element list. -/
def setAdd [DecidableEq α] (acc : List α) (x : α) : List α :=
  if x ∈ acc then acc else acc ++ [x]

/-- The accumulated page set of a token list (the `Set<number>` built by the
loop in `parsePages`), as its insertion-ordered duplicate-free list. -/
def pagesList (parts : List String) : List Int :=
  parts.foldl (fun acc p => (partContribution p).foldl setAdd acc) []

/-- The `parsePages` function: tokenize, accumulate each token's contribution into a set,
return it ascending (`Array.from(pages).sort((a, b) => a - b)`; on a
duplicate-free list the ascending sort is unique, embedded as insertion
sort by `≤`). -/
def parsePages (input : String) : List Int :=
  List.insertionSort (· ≤ ·) (pagesList (pageTokens input))

/-! ## Scrape-job status handling (`scrape`, poll loop body) -/

/-- Model of `data.result?.content`: either an array of extracted items or a single
value. -/
inductive ScrContent (α : Type) where
  | arr (xs : List α)
  | single (x : α)
deriving DecidableEq

/-- One status-poll response body: `{status, result?, error?}`. `content`
models `data.result?.content` (`none` when `result` or `content` is absent);
`error` models `data.error`. -/
structure PollData (α : Type) where
  status : String
  content : Option (ScrContent α)
  error : JSVal
deriving DecidableEq

/-- What one iteration of the poll loop does after reading a response. -/
inductive ScrapeStep (α : Type) where
  | done (v : Option α)
  | fail (msg : JSVal)
  | keepPolling
deriving DecidableEq

/-- Model of `Array.isArray(content) ? content[0] : content` (`none` = `undefined`). -/
def extractContent : Option (ScrContent α) → Option α
  | none => none
  | some (.arr xs) => xs.head?
  | some (.single x) => some x

/-- The poll-loop body of `scrape`: on `"completed"` return the extracted
content, on `"failed"` throw `data.error || "Job failed"`, otherwise keep
polling. -/
def scrapeStatusStep (d : PollData α) : ScrapeStep α :=
  if d.status = "completed" then .done (extractContent d.content)
  else if d.status = "failed" then .fail (jsOr d.error (.str "Job failed"))
  else .keepPolling

/-! ## Stage payloads and the per-event enrichment chain (`main`, step 2) -/

/-- Result of a stage scrape: `.error` models the scrape call throwing,
`.ok none` models it returning `null`/`undefined`, `.ok (some x)` an object. -/
abbrev StageResult (α : Type) := Except Unit (Option α)

/-- Event-stage payload: `event_name, organizer_name, organizer_url`. -/
structure EventData where
  event_name : JSVal
  organizer_name : JSVal
  organizer_url : JSVal
deriving DecidableEq

/-- Organizer-stage payload: `organizer_name, website, facebook,
follower_count, total_events`. -/
structure OrgData where
  organizer_name : JSVal
  website : JSVal
  facebook : JSVal
  follower_count : JSVal
  total_events : JSVal
deriving DecidableEq

/-- Website-stage payload: `{email, phone, address, facebook}`. -/
structure ContactData where
  email : JSVal
  phone : JSVal
  address : JSVal
  facebook : JSVal
deriving DecidableEq

/-- Fallback-social-stage payload: `{email, phone, address}`. -/
structure FallbackData where
  email : JSVal
  phone : JSVal
  address : JSVal
deriving DecidableEq

/-- The empty object `{}` every optional field reads as `undefined`. -/
def emptyOrg : OrgData := ⟨.undef, .undef, .undef, .undef, .undef⟩

/-- The empty object `{}` every optional field reads as `undefined`. -/
def emptyContact : ContactData := ⟨.undef, .undef, .undef, .undef⟩

/-- The empty object `{}` every optional field reads as `undefined`. -/
def emptyFallback : FallbackData := ⟨.undef, .undef, .undef⟩

/-- Model of `let organizer = {}; if (event?.organizer_url) try { organizer = await
scrape(...) } catch { ... }`: the organizer value entering fusion. -/
def organizerOf (ev : Option EventData) (st : StageResult OrgData) :
    Option OrgData :=
  if (optField ev EventData.organizer_url).truthy then
    match st with
    | .ok o => o
    | .error _ => some emptyOrg
  else some emptyOrg

/-- Model of `let websiteContact = {}; if (organizer?.website) try { websiteContact =
await scrape(...) || {} } catch { ... }`: the website-contact value entering
fusion (never `null` thanks to the trailing `|| {}`). -/
def websiteContactOf (org : Option OrgData) (st : StageResult ContactData) :
    ContactData :=
  if (optField org OrgData.website).truthy then
    match st with
    | .ok w => w.getD emptyContact
    | .error _ => emptyContact
  else emptyContact

/-- The guard of the fallback social stage:
`websiteContact?.facebook && !websiteContact?.email`. -/
def fallbackGate (w : ContactData) : Bool :=
  w.facebook.truthy && !w.email.truthy

/-- Model of `let facebookContact = {}; if (websiteContact?.facebook &&
!websiteContact?.email) try { facebookContact = await scrape(...) || {} }
catch { ... }`: the fallback-contact value entering fusion. -/
def fallbackContactOf (w : ContactData) (st : StageResult FallbackData) :
    FallbackData :=
  if fallbackGate w then
    match st with
    | .ok f => f.getD emptyFallback
    | .error _ => emptyFallback
  else emptyFallback

/-- The `cleanFacebook` filter: null out a falsy value or Eventbrite's own profile link,
else pass the value through. -/
def cleanFacebook (fb : JSVal) : JSVal :=
  if !fb.truthy then .null
  else
    match fb with
    | .str s => if containsSub s "facebook.com/Eventbrite" then .null else fb
    | _ => fb

/-- The flat output record built once per event URL. -/
structure EventRecord where
  event_name : JSVal
  event_url : String
  organizer_name : JSVal
  organizer_url : JSVal
  organizer_website : JSVal
  email : JSVal
  phone : JSVal
  address : JSVal
  facebook : JSVal
  follower_count : JSVal
  total_events : JSVal
deriving DecidableEq

/-- The record literal of `main` (lines 194-206): field-level fusion of the
four stage values with `||` defaults. -/
def mkRecord (eventUrl : String) (ev : Option EventData) (org : Option OrgData)
    (w : ContactData) (fb : FallbackData) : EventRecord :=
  { event_name := jsOr (optField ev EventData.event_name) (.str "")
    event_url := eventUrl
    organizer_name := jsOr (optField org OrgData.organizer_name)
      (jsOr (optField ev EventData.organizer_name) (.str ""))
    organizer_url := jsOr (optField ev EventData.organizer_url) (.str "")
    organizer_website := jsOr (optField org OrgData.website) .null
    email := jsOr w.email (jsOr fb.email .null)
    phone := jsOr w.phone (jsOr fb.phone .null)
    address := jsOr w.address (jsOr fb.address .null)
    facebook := jsOr (cleanFacebook w.facebook) .null
    follower_count := jsOr (optField org OrgData.follower_count) (.num 0)
    total_events := jsOr (optField org OrgData.total_events) (.num 0) }

/-- The stage scrape results feeding one event URL's chain. -/
structure StageInputs where
  eventStage : StageResult EventData
  organizerStage : StageResult OrgData
  websiteStage : StageResult ContactData
  fallbackStage : StageResult FallbackData

/-- The per-event chain body (`main`, lines 137-210): an event-stage throw
abandons the item (`none`); otherwise the conditional organizer, website
and fallback stages run and fusion yields a record. -/
def processEvent (eventUrl : String) (si : StageInputs) : Option EventRecord :=
  match si.eventStage with
  | .error _ => none
  | .ok ev =>
    let org := organizerOf ev si.organizerStage
    let w := websiteContactOf org si.websiteStage
    let fb := fallbackContactOf w si.fallbackStage
    some (mkRecord eventUrl ev org w fb)

/-! ## Result store: `JSON.stringify(results, null, 2)`, `saveResults`,
`archiveExistingResults` -/

/-- A hexadecimal digit character (lowercase, as `JSON.stringify` emits). -/
def hexDigitChar (n : Nat) : Char :=
  if n < 10 then Char.ofNat (48 + n) else Char.ofNat (87 + n)

/-- The `JSON.stringify` escaping of one character inside a string literal. -/
def escapeJsonChar (c : Char) : String :=
  if c = '"' then "\\\""
  else if c = '\\' then "\\\\"
  else if c = '\n' then "\\n"
  else if c = '\r' then "\\r"
  else if c = '\t' then "\\t"
  else if c.toNat = 8 then "\\b"
  else if c.toNat = 12 then "\\f"
  else if c.toNat < 32 then
    "\\u00" ++ ⟨[hexDigitChar (c.toNat / 16), hexDigitChar (c.toNat % 16)]⟩
  else ⟨[c]⟩

/-- A JSON string literal for `s`. -/
def jsonOfString (s : String) : String :=
  "\"" ++ String.join (s.toList.map escapeJsonChar) ++ "\""

/-- Serialization of one field value; `none` for `undefined`, which
`JSON.stringify` omits from objects. -/
def jsonOfJSVal : JSVal → Option String
  | .undef => none
  | .null => some "null"
  | .str s => some (jsonOfString s)
  | .num n => some (toString n)

/-- The fields of a record, in the order the record literal writes them. -/
def EventRecord.fields (r : EventRecord) : List (String × JSVal) :=
  [("event_name", r.event_name), ("event_url", .str r.event_url),
   ("organizer_name", r.organizer_name), ("organizer_url", r.organizer_url),
   ("organizer_website", r.organizer_website), ("email", r.email),
   ("phone", r.phone), ("address", r.address), ("facebook", r.facebook),
   ("follower_count", r.follower_count), ("total_events", r.total_events)]

/-- One record as `JSON.stringify` prints it at indent level 1 (inside the
top-level array, indent width 2). -/
def stringifyRecord (r : EventRecord) : String :=
  let kvs := r.fields.filterMap fun kv =>
    (jsonOfJSVal kv.2).map fun v => "    " ++ jsonOfString kv.1 ++ ": " ++ v
  match kvs with
  | [] => "  \x7b\x7d"
  | _ => "  \x7b\n" ++ String.intercalate ",\n" kvs ++ "\n  \x7d"

/-- Model of `JSON.stringify(results, null, 2)`: the indented array of records. -/
def stringifyRecords (rs : List EventRecord) : String :=
  match rs with
  | [] => "[]"
  | _ => "[\n" ++ String.intercalate ",\n" (rs.map stringifyRecord) ++ "\n]"

/-- The file-system state the run touches: content of the canonical
`output/events.json` (if present), the archived files, and whether the
`output` directory exists. -/
structure FS where
  events : Option String
  archives : List (String × String)
  outputDir : Bool
deriving DecidableEq

/-- The `saveResults` function: ensure the output directory exists, then overwrite
`output/events.json` with the serialized full collection. -/
def saveResults (results : List EventRecord) (fs : FS) : FS :=
  { fs with outputDir := true, events := some (stringifyRecords results) }

/-- Characters `[:.]` replaced by `"-"` (the regex in `archiveExistingResults`). -/
def replaceColonDot (c : Char) : Char :=
  if c = ':' ∨ c = '.' then '-' else c

/-- Model of `iso.replace(/[:.]/g, "-").slice(0, 19)`: the archive timestamp derived
from `new Date().toISOString()`. -/
def archiveStamp (iso : String) : String :=
  ⟨(iso.toList.map replaceColonDot).take 19⟩

/-- The `archiveExistingResults` function: when `output/events.json` exists, rename it to
`output/events-<stamp>.json`; otherwise do nothing. -/
def archiveExistingResults (iso : String) (fs : FS) : FS :=
  match fs.events with
  | none => fs
  | some content =>
    { fs with
      events := none
      archives :=
        fs.archives ++ [("output/events-" ++ archiveStamp iso ++ ".json", content)] }

/-! ## Phase 1: URL discovery (`main`, step 1) -/

/-- Discovery-stage payload: `{event_urls: [...]}.` Entries are optional to
model `null` elements (`u?.includes`); the field itself may be absent. -/
structure DiscoverData where
  event_urls : Option (List (Option String))

/-- The URLs one page's outcome contributes:
`(result?.event_urls || []).filter(u => u?.includes("/e/"))`; a thrown
discovery scrape (`.error`) contributes nothing. -/
def pageEventUrls (outcome : StageResult DiscoverData) : List String :=
  match outcome with
  | .error _ => []
  | .ok r =>
    let urls := (r.bind DiscoverData.event_urls).getD []
    urls.filterMap fun u =>
      match u with
      | some s => if containsSub s "/e/" then some s else none
      | none => none

/-- Fold one page's outcome into the accumulated event-URL set
(`urls.filter(...).forEach(u => eventUrlSet.add(u))`). -/
def discoverStep (acc : List String) (outcome : StageResult DiscoverData) :
    List String :=
  (pageEventUrls outcome).foldl setAdd acc

/-- The whole discovery loop: every page's outcome folded into one
deduplicated URL set (`Array.from(eventUrlSet)` keeps this list's order). -/
def discoverAll (outcomes : List (StageResult DiscoverData)) : List String :=
  outcomes.foldl discoverStep []

/-! ## Phase 2 loop and the whole run -/

/-- Append one record and persist the grown collection
(`allResults.push(record); saveResults(allResults)`). -/
def persistStep (st : List EventRecord × FS) (r : EventRecord) :
    List EventRecord × FS :=
  (st.1 ++ [r], saveResults (st.1 ++ [r]) st.2)

/-- One iteration of the phase-2 loop: a dropped item (event-stage throw)
leaves the state untouched; an emitted record is appended and persisted. -/
def phase2Step (st : List EventRecord × FS) (item : String × StageInputs) :
    List EventRecord × FS :=
  match processEvent item.1 item.2 with
  | none => st
  | some r => persistStep st r

/-- The phase-2 loop over every discovered URL with its stage inputs. -/
def runPhase2 (items : List (String × StageInputs))
    (st : List EventRecord × FS) : List EventRecord × FS :=
  items.foldl phase2Step st

/-- The whole of `main` after config checks, with the external world given
as oracles: archive once, discover URLs, then enrich and persist per URL. -/
def mainRun (iso : String) (pageOutcomes : List (StageResult DiscoverData))
    (stages : String → StageInputs) (fs : FS) : List EventRecord × FS :=
  let fs1 := archiveExistingResults iso fs
  let urls := discoverAll pageOutcomes
  runPhase2 (urls.map fun u => (u, stages u)) ([], fs1)

/-- The file system before a run starts: no output yet. -/
def initialFS : FS := ⟨none, [], false⟩

/-! ## Helper lemmas -/

theorem mem_setAdd [DecidableEq α] (acc : List α) (x y : α) :
    y ∈ setAdd acc x ↔ y ∈ acc ∨ y = x := by
  unfold setAdd
  by_cases h : x ∈ acc
  · simp only [if_pos h]
    constructor
    · exact Or.inl
    · rintro (hy | rfl)
      · exact hy
      · exact h
  · simp [if_neg h]

theorem nodup_setAdd [DecidableEq α] {acc : List α} (h : acc.Nodup) (x : α) :
    (setAdd acc x).Nodup := by
  unfold setAdd
  by_cases hx : x ∈ acc
  · simpa [hx]
  · simp [hx, List.nodup_append, h]

theorem mem_foldl_setAdd [DecidableEq α] :
    ∀ (l acc : List α) (y : α), y ∈ l.foldl setAdd acc ↔ y ∈ acc ∨ y ∈ l := by
  intro l
  induction l with
  | nil => simp
  | cons a t ih =>
    intro acc y
    simp only [List.foldl_cons, ih, mem_setAdd, List.mem_cons]
    tauto

theorem nodup_foldl_setAdd [DecidableEq α] :
    ∀ (l acc : List α), acc.Nodup → (l.foldl setAdd acc).Nodup := by
  intro l
  induction l with
  | nil => intro acc h; simpa
  | cons a t ih => intro acc h; exact ih _ (nodup_setAdd h a)

theorem mem_pagesFold :
    ∀ (parts : List String) (acc : List Int) (x : Int),
      x ∈ parts.foldl (fun a p => (partContribution p).foldl setAdd a) acc ↔
        x ∈ acc ∨ ∃ p ∈ parts, x ∈ partContribution p := by
  intro parts
  induction parts with
  | nil => simp
  | cons q t ih =>
    intro acc x
    simp only [List.foldl_cons, ih, mem_foldl_setAdd, List.mem_cons]
    constructor
    · rintro ((h | h) | ⟨p, hp, hx⟩)
      · exact Or.inl h
      · exact Or.inr ⟨q, Or.inl rfl, h⟩
      · exact Or.inr ⟨p, Or.inr hp, hx⟩
    · rintro (h | ⟨p, (rfl | hp), hx⟩)
      · exact Or.inl (Or.inl h)
      · exact Or.inl (Or.inr hx)
      · exact Or.inr ⟨p, hp, hx⟩

theorem mem_pagesList (parts : List String) (x : Int) :
    x ∈ pagesList parts ↔ ∃ p ∈ parts, x ∈ partContribution p := by
  simpa using mem_pagesFold parts [] x

theorem nodup_pagesList (parts : List String) : (pagesList parts).Nodup := by
  have h : ∀ (ps : List String) (acc : List Int), acc.Nodup →
      (ps.foldl (fun a p => (partContribution p).foldl setAdd a) acc).Nodup := by
    intro ps
    induction ps with
    | nil => intro acc h; simpa
    | cons q t ih => intro acc h; exact ih _ (nodup_foldl_setAdd _ _ h)
  exact h _ [] List.nodup_nil

theorem mem_rangeList (lo hi x : Int) :
    x ∈ rangeList lo hi ↔ lo ≤ x ∧ x ≤ hi := by
  simp only [rangeList, List.mem_map, List.mem_range]
  constructor
  · rintro ⟨i, hlt, rfl⟩
    omega
  · intro h
    exact ⟨(x - lo).toNat, by omega, by omega⟩

theorem pos_of_mem_partContribution (p : String) (x : Int)
    (h : x ∈ partContribution p) : 0 < x := by
  unfold partContribution at h
  split at h
  · split at h
    · rcases List.mem_filter.mp h with ⟨-, hpos⟩
      simpa using hpos
    · simp at h
  · split at h
    · split at h
      · simp_all
      · simp at h
    · simp at h

theorem mem_discoverFold :
    ∀ (os : List (StageResult DiscoverData)) (acc : List String) (s : String),
      s ∈ os.foldl discoverStep acc ↔ s ∈ acc ∨ ∃ o ∈ os, s ∈ pageEventUrls o := by
  intro os
  induction os with
  | nil => simp
  | cons a t ih =>
    intro acc s
    simp only [List.foldl_cons, ih, discoverStep, mem_foldl_setAdd, List.mem_cons]
    constructor
    · rintro ((h | h) | ⟨o, ho, hs⟩)
      · exact Or.inl h
      · exact Or.inr ⟨a, Or.inl rfl, h⟩
      · exact Or.inr ⟨o, Or.inr ho, hs⟩
    · rintro (h | ⟨o, (rfl | ho), hs⟩)
      · exact Or.inl (Or.inl h)
      · exact Or.inl (Or.inr hs)
      · exact Or.inr ⟨o, ho, hs⟩

theorem mem_discoverAll (outcomes : List (StageResult DiscoverData)) (s : String) :
    s ∈ discoverAll outcomes ↔ ∃ o ∈ outcomes, s ∈ pageEventUrls o := by
  simpa using mem_discoverFold outcomes [] s

theorem nodup_discoverAll (outcomes : List (StageResult DiscoverData)) :
    (discoverAll outcomes).Nodup := by
  have h : ∀ (os : List (StageResult DiscoverData)) (acc : List String),
      acc.Nodup → (os.foldl discoverStep acc).Nodup := by
    intro os
    induction os with
    | nil => intro acc h; simpa
    | cons a t ih =>
      intro acc h
      exact ih _ (nodup_foldl_setAdd _ _ h)
  exact h _ [] List.nodup_nil

theorem foldl_persistStep :
    ∀ (l : List EventRecord) (acc : List EventRecord) (fs : FS),
      l.foldl persistStep (acc, fs) =
        (acc ++ l,
          if l.isEmpty then fs
          else { fs with outputDir := true
                         events := some (stringifyRecords (acc ++ l)) }) := by
  intro l
  induction l with
  | nil => intro acc fs; simp
  | cons r t ih =>
    intro acc fs
    rw [List.foldl_cons,
      show persistStep (acc, fs) r = (acc ++ [r], saveResults (acc ++ [r]) fs) from rfl,
      ih]
    cases t with
    | nil => simp [saveResults]
    | cons b u => simp [saveResults]

theorem archives_runPhase2 :
    ∀ (items : List (String × StageInputs)) (st : List EventRecord × FS),
      (runPhase2 items st).2.archives = st.2.archives := by
  intro items
  induction items with
  | nil => intro st; rfl
  | cons it t ih =>
    intro st
    show (runPhase2 t (phase2Step st it)).2.archives = _
    rw [ih]
    unfold phase2Step
    cases h : processEvent it.1 it.2 with
    | none => rfl
    | some r => rfl

/-! ## Claim theorems -/

/-- C4: for every input string, `parsePages` returns a strictly ascending
sequence of distinct positive integers equal to the set accumulated from its
tokens, and the result is invariant under reordering and duplication of
comma-separated tokens; in particular `parse("3,1-2")`, `parse("1-2,3")` and
`parse("1,2,3,2")` all equal `[1,2,3]`. -/
theorem parsePages_set_semantics :
    (∀ input : String, (parsePages input).Sorted (· < ·))
    ∧ (∀ input : String, ∀ x ∈ parsePages input, 0 < x)
    ∧ (∀ (input : String) (x : Int),
        x ∈ parsePages input ↔ ∃ p ∈ pageTokens input, x ∈ partContribution p)
    ∧ (∀ s₁ s₂ : String,
        (∀ p, p ∈ pageTokens s₁ ↔ p ∈ pageTokens s₂) →
        parsePages s₁ = parsePages s₂)
    ∧ parsePages "3,1-2" = [1, 2, 3]
    ∧ parsePages "1-2,3" = [1, 2, 3]
    ∧ parsePages "1,2,3,2" = [1, 2, 3] := by
  have hsorted_le : ∀ input : String, (parsePages input).Sorted (· ≤ ·) :=
    fun _ => List.sorted_insertionSort _ _
  have hnodup : ∀ input : String, (parsePages input).Nodup :=
    fun _ => ((List.perm_insertionSort _ _).nodup_iff).mpr (nodup_pagesList _)
  have hmem : ∀ (input : String) (x : Int),
      x ∈ parsePages input ↔ ∃ p ∈ pageTokens input, x ∈ partContribution p := by
    intro input x
    rw [parsePages, (List.perm_insertionSort _ _).mem_iff, mem_pagesList]
  refine ⟨fun input => (hsorted_le input).lt_of_le (hnodup input),
    fun input x hx => ?_, hmem, ?_, by decide, by decide, by decide⟩
  · obtain ⟨p, _, hxp⟩ := (hmem input x).mp hx
    exact pos_of_mem_partContribution p x hxp
  · intro s₁ s₂ htok
    have hperm : List.Perm (pagesList (pageTokens s₁)) (pagesList (pageTokens s₂)) := by
      rw [List.perm_ext_iff_of_nodup (nodup_pagesList _) (nodup_pagesList _)]
      intro a
      rw [mem_pagesList, mem_pagesList]
      constructor
      · rintro ⟨p, hp, ha⟩
        exact ⟨p, (htok p).mp hp, ha⟩
      · rintro ⟨p, hp, ha⟩
        exact ⟨p, (htok p).mpr hp, ha⟩
    exact List.eq_of_perm_of_sorted
      (((List.perm_insertionSort _ _).trans hperm).trans
        (List.perm_insertionSort _ _).symm)
      (List.sorted_insertionSort _ _) (List.sorted_insertionSort _ _)

/-- C5: a range token (one containing a dash) contributes every strictly
positive integer in the inclusive span between the min and max of its two
parsed endpoints, and is silently discarded whole when either endpoint fails
to parse; single tokens that fail to parse or are not positive are likewise
dropped. In particular `parse("5-3") = [3,4,5]`, `parse("") = []` and
`parse("0,-1,abc") = []`. -/
theorem parsePages_token_handling :
    (∀ (part : String) (s e : Int), containsSub part "-" = true →
        rangeEndpoints part = (some s, some e) →
        ∀ x : Int, x ∈ partContribution part ↔
          min s e ≤ x ∧ x ≤ max s e ∧ 0 < x)
    ∧ (∀ part : String, containsSub part "-" = true →
        ((rangeEndpoints part).1 = none ∨ (rangeEndpoints part).2 = none) →
        partContribution part = [])
    ∧ (∀ (part : String) (n : Int), containsSub part "-" = false →
        parseIntJS part = some n → 0 < n → partContribution part = [n])
    ∧ (∀ (part : String) (n : Int), containsSub part "-" = false →
        parseIntJS part = some n → ¬0 < n → partContribution part = [])
    ∧ (∀ part : String, containsSub part "-" = false → parseIntJS part = none →
        partContribution part = [])
    ∧ parsePages "5-3" = [3, 4, 5]
    ∧ parsePages "" = []
    ∧ parsePages "0,-1,abc" = [] := by
  refine ⟨?_, ?_, ?_, ?_, ?_, by decide, by decide, by decide⟩
  · intro part s e hdash hre x
    simp only [partContribution, hdash, if_true, hre]
    simp only [List.mem_filter, mem_rangeList, decide_eq_true_eq]
    tauto
  · intro part hdash hnone
    rcases hre : rangeEndpoints part with ⟨f, sec⟩
    rw [hre] at hnone
    simp only [partContribution, hdash, if_true, hre]
    cases f <;> cases sec <;> simp_all
  · intro part n hdash hparse hpos
    simp [partContribution, hdash, hparse, hpos]
  · intro part n hdash hparse hpos
    simp [partContribution, hdash, hparse, hpos]
  · intro part hdash hparse
    simp [partContribution, hdash, hparse]

/-- C7: the accumulated event-URL set is the deduplicated union over pages
of the returned URLs containing the detail-page marker `/e/`; URLs lacking
the marker are excluded, duplicates across pages count once, and a failed
page contributes nothing. On the example pages (three URLs, one duplicated
across both pages) the set is exactly the two `/e/` URLs. -/
theorem discoverAll_dedup_union :
    (∀ outcomes : List (StageResult DiscoverData), (discoverAll outcomes).Nodup)
    ∧ (∀ (outcomes : List (StageResult DiscoverData)) (s : String),
        s ∈ discoverAll outcomes ↔ ∃ o ∈ outcomes, s ∈ pageEventUrls o)
    ∧ (∀ (d : DiscoverData) (s : String),
        s ∈ pageEventUrls (.ok (some d)) ↔
          some s ∈ d.event_urls.getD [] ∧ containsSub s "/e/" = true)
    ∧ pageEventUrls (.error ()) = []
    ∧ discoverAll
        [.ok (some ⟨some [some "https://x/e/1", some "https://x/e/2",
            some "https://x/o/3"]⟩),
         .ok (some ⟨some [some "https://x/e/2"]⟩)]
        = ["https://x/e/1", "https://x/e/2"]
    ∧ (discoverAll
        [.ok (some ⟨some [some "https://x/e/1", some "https://x/e/2",
            some "https://x/o/3"]⟩),
         .ok (some ⟨some [some "https://x/e/2"]⟩)]).length = 2 := by
  refine ⟨nodup_discoverAll, mem_discoverAll, ?_, rfl, by decide, by decide⟩
  intro d s
  simp only [pageEventUrls, Option.some_bind, List.mem_filterMap]
  constructor
  · rintro ⟨a, ha, hfa⟩
    cases a with
    | none => simp at hfa
    | some t =>
      by_cases hc : containsSub t "/e/" = true
      · simp only [hc, if_true] at hfa
        cases hfa
        exact ⟨ha, hc⟩
      · simp [hc] at hfa
  · rintro ⟨hmem, hcont⟩
    exact ⟨some s, hmem, by simp [hcont]⟩

/-- C1: `saveResults` overwrites the canonical output file with the full
current collection serialized as an indented JSON array, so after the k-th
append-and-persist the file holds exactly the first k records — a complete
snapshot of the records appended so far. -/
theorem saveResults_snapshot :
    (∀ (results : List EventRecord) (fs : FS),
        saveResults results fs =
          { fs with outputDir := true
                    events := some (stringifyRecords results) })
    ∧ (∀ (recs : List EventRecord) (fs : FS) (k : Nat),
        1 ≤ k → k ≤ recs.length →
        ((recs.take k).foldl persistStep ([], fs)).1 = recs.take k
        ∧ ((recs.take k).foldl persistStep ([], fs)).2.events
            = some (stringifyRecords (recs.take k))) := by
  refine ⟨fun results fs => rfl, ?_⟩
  intro recs fs k hk1 hk2
  have hne : (recs.take k).isEmpty = false := by
    cases h : recs.take k with
    | nil =>
      have hlen := congrArg List.length h
      simp only [List.length_take, List.length_nil] at hlen
      omega
    | cons a t => rfl
  rw [foldl_persistStep]
  simp [hne]

/-- C9: `archiveExistingResults` is a no-op when no output file exists; when
one exists it renames it (content preserved byte-for-byte) to a name
embedding a timestamp with colons and periods replaced and truncated to
whole-second (19-char) precision, leaving the canonical path nonexistent;
and over a whole run it is applied exactly once, before the phases start. -/
theorem archiveExistingResults_spec :
    (∀ (iso : String) (fs : FS), fs.events = none →
        archiveExistingResults iso fs = fs)
    ∧ (∀ (iso : String) (fs : FS) (c : String), fs.events = some c →
        archiveExistingResults iso fs =
          { fs with events := none
                    archives := fs.archives ++
                      [("output/events-" ++ archiveStamp iso ++ ".json", c)] })
    ∧ (∀ iso : String, ':' ∉ (archiveStamp iso).toList
        ∧ '.' ∉ (archiveStamp iso).toList ∧ (archiveStamp iso).length ≤ 19)
    ∧ archiveStamp "2025-01-02T03:04:05.678Z" = "2025-01-02T03-04-05"
    ∧ (∀ (iso : String) (po : List (StageResult DiscoverData))
        (stages : String → StageInputs) (fs : FS),
        (mainRun iso po stages fs).2.archives =
          (archiveExistingResults iso fs).archives) := by
  refine ⟨?_, ?_, ?_, by decide, ?_⟩
  · intro iso fs h
    simp [archiveExistingResults, h]
  · intro iso fs c h
    simp [archiveExistingResults, h]
  · intro iso
    have hmem : ∀ c ∈ (iso.toList.map replaceColonDot).take 19,
        c ≠ ':' ∧ c ≠ '.' := by
      intro c hc
      obtain ⟨d, _, rfl⟩ := List.mem_map.mp (List.mem_of_mem_take hc)
      unfold replaceColonDot
      by_cases h : d = ':' ∨ d = '.'
      · simp [h]
      · push_neg at h
        simp [h]
    refine ⟨fun h => ((hmem _ h).1 rfl).elim, fun h => ((hmem _ h).2 rfl).elim, ?_⟩
    show ((iso.toList.map replaceColonDot).take 19).length ≤ 19
    simp [List.length_take]
  · intro iso po stages fs
    show (runPhase2 ((discoverAll po).map fun u => (u, stages u))
        ([], archiveExistingResults iso fs)).2.archives = _
    exact archives_runPhase2 _ _

/-- C2: an event-stage throw emits no record and the loop continues; an
organizer-, website- or fallback-stage throw still emits a record with the
failing stage's fields at their defaults and `event_url` the processed URL;
a URL-discovery throw on one page contributes nothing without aborting. -/
theorem processEvent_error_policy :
    (∀ (url : String) (ost : StageResult OrgData) (wst : StageResult ContactData)
        (fsi : StageResult FallbackData),
        processEvent url ⟨.error (), ost, wst, fsi⟩ = none)
    ∧ (∀ (url : String) (ost : StageResult OrgData) (wst : StageResult ContactData)
        (fsi : StageResult FallbackData)
        (rest : List (String × StageInputs)) (st : List EventRecord × FS),
        runPhase2 ((url, ⟨.error (), ost, wst, fsi⟩) :: rest) st = runPhase2 rest st)
    ∧ (∀ (url : String) (ev : Option EventData) (wst : StageResult ContactData)
        (fsi : StageResult FallbackData),
        processEvent url ⟨.ok ev, .error (), wst, fsi⟩ =
          some { event_name := jsOr (optField ev EventData.event_name) (.str "")
                 event_url := url
                 organizer_name := jsOr (optField ev EventData.organizer_name) (.str "")
                 organizer_url := jsOr (optField ev EventData.organizer_url) (.str "")
                 organizer_website := .null
                 email := .null
                 phone := .null
                 address := .null
                 facebook := .null
                 follower_count := .num 0
                 total_events := .num 0 })
    ∧ (∀ (url : String) (ev : Option EventData) (ost : StageResult OrgData)
        (fsi : StageResult FallbackData),
        processEvent url ⟨.ok ev, ost, .error (), fsi⟩ =
          some (mkRecord url ev (organizerOf ev ost) emptyContact emptyFallback)
        ∧ (mkRecord url ev (organizerOf ev ost) emptyContact emptyFallback).event_url = url
        ∧ (mkRecord url ev (organizerOf ev ost) emptyContact emptyFallback).email = .null
        ∧ (mkRecord url ev (organizerOf ev ost) emptyContact emptyFallback).phone = .null
        ∧ (mkRecord url ev (organizerOf ev ost) emptyContact emptyFallback).address = .null
        ∧ (mkRecord url ev (organizerOf ev ost) emptyContact emptyFallback).facebook = .null)
    ∧ (∀ (url : String) (ev : Option EventData) (ost : StageResult OrgData)
        (wst : StageResult ContactData),
        processEvent url ⟨.ok ev, ost, wst, .error ()⟩ =
          some (mkRecord url ev (organizerOf ev ost)
            (websiteContactOf (organizerOf ev ost) wst) emptyFallback)
        ∧ (∀ (org : Option OrgData) (w : ContactData),
            (mkRecord url ev org w emptyFallback).event_url = url
            ∧ (mkRecord url ev org w emptyFallback).email = jsOr w.email .null
            ∧ (mkRecord url ev org w emptyFallback).phone = jsOr w.phone .null
            ∧ (mkRecord url ev org w emptyFallback).address = jsOr w.address .null))
    ∧ (∀ (acc : List String) (rest : List (StageResult DiscoverData)),
        discoverStep acc (.error ()) = acc
        ∧ (.error () :: rest).foldl discoverStep acc = rest.foldl discoverStep acc) := by
  have horg : ∀ (ev : Option EventData), organizerOf ev (.error ()) = some emptyOrg := by
    intro ev
    unfold organizerOf
    split <;> rfl
  have hweb : ∀ (org : Option OrgData) , websiteContactOf org (.error ()) = emptyContact := by
    intro org
    unfold websiteContactOf
    split <;> rfl
  have hfb : ∀ w : ContactData, fallbackContactOf w (.error ()) = emptyFallback := by
    intro w
    unfold fallbackContactOf
    split <;> rfl
  refine ⟨fun _ _ _ _ => rfl, fun _ _ _ _ _ _ => rfl, ?_, ?_, ?_,
    fun _ _ => ⟨rfl, rfl⟩⟩
  · intro url ev wst fsi
    simp only [processEvent, horg]
    rfl
  · intro url ev ost fsi
    refine ⟨?_, rfl, rfl, rfl, rfl, rfl⟩
    simp only [processEvent, hweb]
    rfl
  · intro url ev ost wst
    refine ⟨?_, fun org w => ⟨rfl, rfl, rfl, rfl⟩⟩
    simp only [processEvent, hfb]

/-- C3: the fallback social stage runs iff the website stage yielded a
(truthy) facebook link and no (truthy) email; the fused `email`, `phone` and
`address` each take the website-stage value when truthy, else the
fallback-stage value when truthy, else null; on the example inputs (website
email null, fallback email `a@b.com`) the fused email is the fallback's and
`facebook` stays the website's link. -/
theorem fallbackStage_gating_fusion :
    (∀ (url : String) (ev : Option EventData) (ost : StageResult OrgData)
        (wst : StageResult ContactData) (f₁ f₂ : StageResult FallbackData),
        fallbackGate (websiteContactOf (organizerOf ev ost) wst) = false →
        processEvent url ⟨.ok ev, ost, wst, f₁⟩ =
          processEvent url ⟨.ok ev, ost, wst, f₂⟩)
    ∧ (∀ w : ContactData, fallbackGate w = (w.facebook.truthy && !w.email.truthy))
    ∧ (∀ (w : ContactData) (f : FallbackData), fallbackGate w = true →
        fallbackContactOf w (.ok (some f)) = f)
    ∧ (∀ (w : ContactData) (f : StageResult FallbackData), fallbackGate w = false →
        fallbackContactOf w f = emptyFallback)
    ∧ (∀ (url : String) (ev : Option EventData) (org : Option OrgData)
        (w : ContactData) (fb : FallbackData),
        (mkRecord url ev org w fb).email =
          (if w.email.truthy then w.email
           else if fb.email.truthy then fb.email else .null)
        ∧ (mkRecord url ev org w fb).phone =
          (if w.phone.truthy then w.phone
           else if fb.phone.truthy then fb.phone else .null)
        ∧ (mkRecord url ev org w fb).address =
          (if w.address.truthy then w.address
           else if fb.address.truthy then fb.address else .null))
    ∧ Option.map EventRecord.email (processEvent "https://x/e/1"
        ⟨.ok (some ⟨.str "Ev", .str "Org", .str "https://x/o/9"⟩),
         .ok (some ⟨.str "Org", .str "https://org.example", .undef, .num 5, .num 2⟩),
         .ok (some ⟨.null, .null, .null, .str "https://social/about"⟩),
         .ok (some ⟨.str "a@b.com", .null, .null⟩)⟩) = some (.str "a@b.com")
    ∧ Option.map EventRecord.facebook (processEvent "https://x/e/1"
        ⟨.ok (some ⟨.str "Ev", .str "Org", .str "https://x/o/9"⟩),
         .ok (some ⟨.str "Org", .str "https://org.example", .undef, .num 5, .num 2⟩),
         .ok (some ⟨.null, .null, .null, .str "https://social/about"⟩),
         .ok (some ⟨.str "a@b.com", .null, .null⟩)⟩)
        = some (.str "https://social/about") := by
  have hoff : ∀ (w : ContactData) (f : StageResult FallbackData),
      fallbackGate w = false → fallbackContactOf w f = emptyFallback := by
    intro w f h
    unfold fallbackContactOf
    simp [h]
  refine ⟨?_, fun _ => rfl, ?_, hoff, fun _ _ _ _ _ => ⟨rfl, rfl, rfl⟩,
    by decide, by decide⟩
  · intro url ev ost wst f₁ f₂ h
    simp only [processEvent, hoff _ f₁ h, hoff _ f₂ h]
  · intro w f h
    unfold fallbackContactOf
    simp [h]

/-- C6: the fused record's `facebook` field is always the website-stage
facebook value passed through `cleanFacebook` — null when the value is falsy
or contains `facebook.com/Eventbrite`, else the website-stage value
unchanged — and the fallback stage never contributes to it. -/
theorem record_facebook_cleaned :
    (∀ (url : String) (ev : Option EventData) (org : Option OrgData)
        (w : ContactData) (f₁ f₂ : FallbackData),
        (mkRecord url ev org w f₁).facebook = (mkRecord url ev org w f₂).facebook)
    ∧ (∀ (url : String) (ev : Option EventData) (org : Option OrgData)
        (w : ContactData) (fb : FallbackData),
        (mkRecord url ev org w fb).facebook = jsOr (cleanFacebook w.facebook) .null)
    ∧ (∀ v : JSVal, v.truthy = false → cleanFacebook v = .null)
    ∧ (∀ s : String, containsSub s "facebook.com/Eventbrite" = true →
        cleanFacebook (.str s) = .null)
    ∧ (∀ s : String, s ≠ "" → containsSub s "facebook.com/Eventbrite" = false →
        cleanFacebook (.str s) = .str s)
    ∧ (∀ (url : String) (ev : Option EventData) (org : Option OrgData)
        (w : ContactData) (fb : FallbackData), w.facebook.truthy = false →
        (mkRecord url ev org w fb).facebook = .null)
    ∧ cleanFacebook (.str "https://www.facebook.com/Eventbrite") = .null := by
  have hfalsy : ∀ v : JSVal, v.truthy = false → cleanFacebook v = .null := by
    intro v h
    unfold cleanFacebook
    simp [h]
  refine ⟨fun _ _ _ _ _ _ => rfl, fun _ _ _ _ _ => rfl, hfalsy, ?_, ?_, ?_,
    by decide⟩
  · intro s h
    by_cases hs : s = ""
    · subst hs
      exact absurd h (by decide)
    · unfold cleanFacebook
      simp [JSVal.truthy, hs, h]
  · intro s hs h
    unfold cleanFacebook
    simp [JSVal.truthy, hs, h]
  · intro url ev org w fb h
    show jsOr (cleanFacebook w.facebook) .null = .null
    rw [hfalsy _ h]
    rfl

/-- C8: on status `"completed"` the poll loop returns the extracted content
(the first element when the content is an array, the value as-is otherwise);
on status `"failed"` it throws the service-reported error message, or the
generic `"Job failed"` when none is given. -/
theorem scrape_terminal_states :
    (∀ (α : Type) (d : PollData α), d.status = "completed" →
        scrapeStatusStep d = .done (extractContent d.content))
    ∧ (∀ (α : Type) (x : α) (xs : List α),
        extractContent (some (.arr (x :: xs))) = some x)
    ∧ (∀ (α : Type) (xs : List α), extractContent (some (.arr xs)) = xs.head?)
    ∧ (∀ (α : Type) (x : α), extractContent (some (.single x)) = some x)
    ∧ (∀ (α : Type) (d : PollData α) (m : String), d.status = "failed" →
        d.error = .str m → m ≠ "" → scrapeStatusStep d = .fail (.str m))
    ∧ (∀ (α : Type) (d : PollData α), d.status = "failed" →
        d.error.truthy = false → scrapeStatusStep d = .fail (.str "Job failed"))
    ∧ scrapeStatusStep (⟨"completed", some (.arr [7, 8]), .null⟩ : PollData Nat)
        = .done (some 7)
    ∧ scrapeStatusStep (⟨"failed", none, .null⟩ : PollData Nat)
        = .fail (.str "Job failed")
    ∧ scrapeStatusStep (⟨"failed", none, .str "boom"⟩ : PollData Nat)
        = .fail (.str "boom")
    ∧ scrapeStatusStep (⟨"processing", none, .null⟩ : PollData Nat)
        = .keepPolling := by
  refine ⟨?_, fun _ _ _ => rfl, fun _ _ => rfl, fun _ _ => rfl, ?_, ?_,
    by decide, by decide, by decide, by decide⟩
  · intro α d h
    simp [scrapeStatusStep, h]
  · intro α d m h1 h2 h3
    simp [scrapeStatusStep, h1, h2, jsOr, JSVal.truthy, h3]
  · intro α d h1 h2
    simp [scrapeStatusStep, h1, jsOr, h2]

/-- C10: in fusion and fallback gating an empty string (and numeric 0) is
treated like an absent value: a website email of `""` both triggers the
fallback stage and lets the fallback email win; an organizer name of `""`
falls through to the event-stage name; follower/total counts of 0 are
indistinguishable from absent fields. -/
theorem falsy_empty_as_absent :
    (∀ w : ContactData, w.email = .str "" → fallbackGate w = w.facebook.truthy)
    ∧ (∀ p a f : JSVal,
        fallbackGate ⟨.str "", p, a, f⟩ = fallbackGate ⟨.undef, p, a, f⟩)
    ∧ (∀ (w : ContactData) (fb : FallbackData), w.email = .str "" →
        w.facebook.truthy = true → fallbackContactOf w (.ok (some fb)) = fb)
    ∧ (∀ (url : String) (ev : Option EventData) (org : Option OrgData)
        (w : ContactData) (fb : FallbackData), w.email = .str "" →
        (mkRecord url ev org w fb).email = jsOr fb.email .null)
    ∧ (∀ (url : String) (ev : Option EventData) (o : OrgData)
        (w : ContactData) (fb : FallbackData), o.organizer_name = .str "" →
        (mkRecord url ev (some o) w fb).organizer_name =
          jsOr (optField ev EventData.organizer_name) (.str ""))
    ∧ (∀ (url : String) (ev : Option EventData) (o : OrgData)
        (w : ContactData) (fb : FallbackData),
        mkRecord url ev (some { o with follower_count := .num 0 }) w fb =
          mkRecord url ev (some { o with follower_count := .undef }) w fb)
    ∧ (∀ (url : String) (ev : Option EventData) (o : OrgData)
        (w : ContactData) (fb : FallbackData),
        mkRecord url ev (some { o with total_events := .num 0 }) w fb =
          mkRecord url ev (some { o with total_events := .undef }) w fb)
    ∧ Option.map EventRecord.email (processEvent "https://x/e/1"
        ⟨.ok (some ⟨.str "Ev", .str "Org", .str "https://x/o/9"⟩),
         .ok (some ⟨.str "Org", .str "https://org.example", .undef, .num 5, .num 2⟩),
         .ok (some ⟨.str "", .null, .null, .str "https://social/about"⟩),
         .ok (some ⟨.str "a@b.com", .null, .null⟩)⟩) = some (.str "a@b.com") := by
  refine ⟨?_, fun _ _ _ => rfl, ?_, ?_, ?_, fun _ _ _ _ _ => rfl,
    fun _ _ _ _ _ => rfl, by decide⟩
  · intro w h
    simp [fallbackGate, h, JSVal.truthy]
  · intro w fb he hf
    have hg : fallbackGate w = true := by
      unfold fallbackGate
      rw [he, hf]
      rfl
    unfold fallbackContactOf
    rw [hg]
    rfl
  · intro url ev org w fb h
    show jsOr w.email (jsOr fb.email .null) = jsOr fb.email .null
    rw [h]
    rfl
  · intro url ev o w fb h
    show jsOr (optField (some o) OrgData.organizer_name) _ = _
    rw [show optField (some o) OrgData.organizer_name = o.organizer_name from rfl, h]
    rfl

end Scraper
